import Mathlib

/-!
Shallow embedding of the snapshot-diff-and-rank core of `nifty.py`
(single-run NIFTY/BANKNIFTY pct-COI ranking alert script).

Modelling conventions:
* Python ints are `ℤ`, Python floats are idealized as `ℚ` (the claims under
  study are about control flow, ordering and exact zero/threshold comparisons,
  not about binary floating-point rounding).
* `pandas.DataFrame.sort_values` on a single column is modelled by a stable
  ascending sort (`List.insertionSort`); pandas implements descending order by
  reversing the ascending stable argsort (`pandas.core.sorting.nargsort`), so
  `sort_values(col, ascending=False)` is modelled as the reverse of the stable
  ascending sort.  The two sorts embedded below are exact under this model:
  the strike sort of `records_to_df` runs on tie-free keys (any correct sort
  agrees), and the pct sort of the ranker runs on the at-most-`NEAREST_STRIKES`
  row diff tables, where numpy's default sort is insertion sort (stable).  The
  nearest-strike selector's distance sort runs over the full option chain,
  where the default quicksort's tie order is unspecified, so that function is
  not embedded here.
* JSON field values that the script feeds to `float()` are modelled by
  `RawVal`: `vnull` is JSON null / Python `None`, `vnum q` is any value that
  `float()` accepts (number or numeric string) with numeric value `q`, and
  `vbad` is any value on which `float()` raises.
* Fallible paths return `Option`; a Python exception is `none`.
-/

namespace Nifty

/-- A raw JSON field value as seen by the coercion helpers of `records_to_df`:
`vnull` models null/None, `vnum q` models a value accepted by Python `float()`
with numeric value `q`, `vbad` models a value on which `float()` raises. -/
inductive RawVal
  | vnull
  | vnum (q : ℚ)
  | vbad
deriving DecidableEq, Repr

/-- One side sub-record (the `CE` / `PE` dict of a raw option-chain entry);
`none` fields are absent keys. -/
structure RawSide where
  openInterest : Option RawVal
  changeinOpenInterest : Option RawVal
  impliedVolatility : Option RawVal
deriving DecidableEq, Repr

/-- A raw per-strike entry of the option chain (`rec` in `records_to_df`);
`none` fields are absent keys. -/
structure RawRec where
  strikePrice : Option RawVal
  CE : Option RawSide
  PE : Option RawSide
deriving DecidableEq, Repr

/-- The empty dict that `rec.get('CE', {})` substitutes for an absent side. -/
def emptySide : RawSide := ⟨none, none, none⟩

/-- Truncation toward zero: the value of Python `int(·)` on a real number. -/
def truncQ (q : ℚ) : ℤ := if q < 0 then ⌈q⌉ else ⌊q⌋

/-- Embeds `safe_int` of `records_to_df`: `int(float(x)) if x is not None
else 0`, with any exception yielding 0. -/
def safe_int (x : RawVal) : ℤ :=
  match x with
  | .vnull => 0
  | .vnum q => truncQ q
  | .vbad => 0

/-- Embeds `safe_float` of `records_to_df`: `float(x) if x is not None
else 0.0`, with any exception yielding 0.0. -/
def safe_float (x : RawVal) : ℚ :=
  match x with
  | .vnull => 0
  | .vnum q => q
  | .vbad => 0

/-- One row of the normalized table as `records_to_df` builds it.  The strike
column keeps the raw `strikePrice` value (no coercion is applied to it in the
source); the numeric columns are the `safe_int`/`safe_float` coercions. -/
structure Row where
  strike : RawVal
  CE_OI : ℤ
  CE_COI : ℤ
  CE_IV : ℚ
  PE_OI : ℤ
  PE_COI : ℤ
  PE_IV : ℚ
deriving DecidableEq, Repr

/-- The per-entry body of the loop in `records_to_df` (lines 153-178):
`strike = rec.get('strikePrice', 0)`, `ce = rec.get('CE', {})`,
`pe = rec.get('PE', {})`, then the seven coerced columns. -/
def rowOfRec (rec : RawRec) : Row :=
  let ce := rec.CE.getD emptySide
  let pe := rec.PE.getD emptySide
  { strike := rec.strikePrice.getD (.vnum 0)
    CE_OI := safe_int (ce.openInterest.getD (.vnum 0))
    CE_COI := safe_int (ce.changeinOpenInterest.getD (.vnum 0))
    CE_IV := safe_float (ce.impliedVolatility.getD (.vnum 0))
    PE_OI := safe_int (pe.openInterest.getD (.vnum 0))
    PE_COI := safe_int (pe.changeinOpenInterest.getD (.vnum 0))
    PE_IV := safe_float (pe.impliedVolatility.getD (.vnum 0)) }

/-- Canonical per-strike record once the strike is known to be numeric (the
shape every later stage of the pipeline requires). -/
structure StrikeRecord where
  strike : ℚ
  CE_OI : ℤ
  CE_COI : ℤ
  CE_IV : ℚ
  PE_OI : ℤ
  PE_COI : ℤ
  PE_IV : ℚ
deriving DecidableEq, Repr

/-- Reads a normalized row back as a `StrikeRecord` when its strike value is
numeric; `none` otherwise (a non-numeric strike makes the later pandas
`sort_values('strike')` comparison raise). -/
def toStrikeRecord (r : Row) : Option StrikeRecord :=
  match r.strike with
  | .vnum q => some ⟨q, r.CE_OI, r.CE_COI, r.CE_IV, r.PE_OI, r.PE_COI, r.PE_IV⟩
  | _ => none

/-- Embeds `drop_duplicates(subset=['strike'])` with pandas' default
`keep='first'`: retain the first occurrence of each strike value. -/
def dedupFirst : List StrikeRecord → List StrikeRecord
  | [] => []
  | r :: rs => r :: dedupFirst (rs.filter fun x => x.strike != r.strike)
termination_by l => l.length
decreasing_by
  simp only [List.length_cons]
  exact Nat.lt_succ_of_le (List.length_filter_le _ _)

/-- Stable ascending sort on a rational key: the model of pandas
`sort_values(col)` (single column, ascending). -/
def sortOn {α : Type} (key : α → ℚ) (l : List α) : List α :=
  l.insertionSort (fun a b => key a ≤ key b)

/-- Model of pandas `sort_values(col, ascending=False)`: pandas' `nargsort`
computes the ascending (stable) argsort and reverses it. -/
def sortOnDesc {α : Type} (key : α → ℚ) (l : List α) : List α :=
  (sortOn key l).reverse

/-- Embeds `records_to_df` (lines 150-181): per-entry normalization, then
`drop_duplicates(subset=['strike'])`, then `sort_values('strike')`.  The
result is `none` when some strike value is non-numeric (pandas would then
either raise on the mixed-type comparison or order non-numerically; the
numeric-strike case is the supported shape of the feed). -/
def records_to_df (recs : List RawRec) : Option (List StrikeRecord) :=
  match ((recs.map rowOfRec).mapM toStrikeRecord) with
  | none => none
  | some rows => some (sortOn (fun r => r.strike) (dedupFirst rows))

/-- One row of the previous snapshot after the numeric re-coercion of lines
342-344 (`strike` to int; the four OI/COI columns to int).  The implied
volatility columns are never read by the differencer and are elided. -/
structure PrevRow where
  strike : ℤ
  CE_OI : ℤ
  CE_COI : ℤ
  PE_OI : ℤ
  PE_COI : ℤ
deriving DecidableEq, Repr

/-- Embeds `prev_map.get(s)` where `prev_map = prev_sel.set_index('strike')
.to_dict('index')` (line 379).  The dict conversion requires the strike index
to be unique (pandas raises otherwise), so lookup is the unique — hence
first — matching row. -/
def prevLookup (prev : List PrevRow) (s : ℤ) : Option PrevRow :=
  prev.find? fun p => p.strike == s

/-- `MIN_PREV_OI_DENOM = 1e-9` (line 44), idealized as the exact rational. -/
def MIN_PREV_OI_DENOM : ℚ := 1 / 1000000000

/-- Default `MIN_POSITIVE_PCT = 0.0001` (line 45). -/
def MIN_POSITIVE_PCT : ℚ := 1 / 10000

/-- Default `ALERT_TOP_N = 3` (line 30). -/
def ALERT_TOP_N : ℕ := 3

/-- Default `NEAREST_STRIKES = 10` (line 29). -/
def NEAREST_STRIKES : ℕ := 10

/-- One per-strike, per-side row of the diff tables `rows_ce` / `rows_pe`
(lines 403-404). -/
structure DiffRow where
  strike : ℤ
  prev_oi : ℤ
  curr_oi : ℤ
  coi : ℤ
  pct_coi : ℚ
deriving DecidableEq, Repr

/-- The per-strike body of the differencer loop (lines 384-404), producing the
CE row and the PE row for one current record: on a previous-map hit the pct is
`coi / max(prev_oi, 1e-9)` gated on `coi > 0`; on a miss both pcts are 0.0 and
both prev OIs are 0. -/
def mkDiff (prev : List PrevRow) (r : StrikeRecord) : DiffRow × DiffRow :=
  let s : ℤ := truncQ r.strike
  let curr_ce_coi := r.CE_COI
  let curr_ce_oi := r.CE_OI
  let curr_pe_coi := r.PE_COI
  let curr_pe_oi := r.PE_OI
  match prevLookup prev s with
  | some pm =>
      let prev_ce_oi := pm.CE_OI
      let prev_pe_oi := pm.PE_OI
      let pct_ce : ℚ :=
        if 0 < curr_ce_coi then
          (curr_ce_coi : ℚ) / max (prev_ce_oi : ℚ) MIN_PREV_OI_DENOM else 0
      let pct_pe : ℚ :=
        if 0 < curr_pe_coi then
          (curr_pe_coi : ℚ) / max (prev_pe_oi : ℚ) MIN_PREV_OI_DENOM else 0
      (⟨s, prev_ce_oi, curr_ce_oi, curr_ce_coi, pct_ce⟩,
       ⟨s, prev_pe_oi, curr_pe_oi, curr_pe_coi, pct_pe⟩)
  | none =>
      (⟨s, 0, curr_ce_oi, curr_ce_coi, 0⟩,
       ⟨s, 0, curr_pe_oi, curr_pe_coi, 0⟩)

/-- The `rows_ce` table built by the differencer loop. -/
def rows_ce (sel : List StrikeRecord) (prev : List PrevRow) : List DiffRow :=
  sel.map fun r => (mkDiff prev r).1

/-- The `rows_pe` table built by the differencer loop. -/
def rows_pe (sel : List StrikeRecord) (prev : List PrevRow) : List DiffRow :=
  sel.map fun r => (mkDiff prev r).2

/-- Embeds lines 406-410 for one side: sort the diff table by `pct_coi`
descending, filter to `pct_coi > MIN_POSITIVE_PCT` (strict), take the first
`ALERT_TOP_N` rows. -/
def alertsTable (rows : List DiffRow) (thr : ℚ) (top_n : ℕ) : List DiffRow :=
  (((sortOnDesc (fun d => d.pct_coi) rows).filter
      fun d => thr < d.pct_coi)).take top_n

/-- Option side tag. -/
inductive Side
  | CE
  | PE
deriving DecidableEq, Repr

/-- Python `enumerate(xs, start)`. -/
def enumerate1 {α : Type} : ℕ → List α → List (ℕ × α)
  | _, [] => []
  | n, a :: l => (n, a) :: enumerate1 (n + 1) l

/-- One emitted alert row (lines 415-431).  The constant metadata columns
(timestamp, symbol, underlying) and the two formatted text columns
(`event_type`, `details`) are elided: they carry the same `rank`, `strike`,
`side`, `pct_coi` data in printed form. -/
structure AlertRow where
  rank : ℕ
  strike : ℤ
  side : Side
  pct_coi : ℚ
deriving DecidableEq, Repr

/-- Embeds the alert-building loops (lines 415-431): enumerate the filtered,
truncated table from rank 1 upward. -/
def buildAlerts (side : Side) (tbl : List DiffRow) : List AlertRow :=
  (enumerate1 1 tbl).map fun p => ⟨p.1, p.2.strike, side, p.2.pct_coi⟩

/-- One persisted history row (lines 350-357).  The stored timestamp is a
`%Y-%m-%d %H:%M:%S` string whose lexicographic order coincides with
chronological order; it is modelled as a linearly ordered value (`ℕ`). -/
structure HistRow where
  timestamp : ℕ
  symbol : String
  underlying : ℚ
  strike : ℤ
  CE_OI : ℤ
  CE_COI : ℤ
  CE_IV : ℚ
  PE_OI : ℤ
  PE_COI : ℤ
  PE_IV : ℚ
deriving DecidableEq, Repr

/-- The history row written for one selected record (lines 351-357). -/
def histRow (ts : ℕ) (sym : String) (underlying : ℚ) (r : StrikeRecord) : HistRow :=
  ⟨ts, sym, underlying, truncQ r.strike,
   r.CE_OI, r.CE_COI, r.CE_IV, r.PE_OI, r.PE_COI, r.PE_IV⟩

/-- The numeric re-read of one stored history row as a previous-snapshot row
(lines 341-344; the string-to-number round trip is modelled as the identity on
the typed values). -/
def toPrevRow (h : HistRow) : PrevRow :=
  ⟨h.strike, h.CE_OI, h.CE_COI, h.PE_OI, h.PE_COI⟩

/-- `df_hist['timestamp'].max()` over a nonempty row list (line 337): the
maximum is taken over ALL rows, with no symbol filter. -/
def maxTimestamp (h : HistRow) (t : List HistRow) : ℕ :=
  t.foldl (fun m r => max m r.timestamp) h.timestamp

/-- Embeds the previous-snapshot read (lines 330-345): take the maximum
timestamp over ALL history rows (any symbol), filter to rows with that
timestamp AND the configured symbol, and yield them unless empty.  An empty
history (header only) yields `none`. -/
def readPrevSnapshot (hist : List HistRow) (sym : String) :
    Option (List PrevRow) :=
  match hist with
  | [] => none
  | h :: t =>
      let lastTs := maxTimestamp h t
      let snap := (h :: t).filter fun r =>
        r.timestamp == lastTs && r.symbol == sym
      if snap.isEmpty then none else some (snap.map toPrevRow)

/-- Observable outcome of the post-fetch part of one run: the history rows
appended and the alert rows appended. -/
structure RunResult where
  history : List HistRow
  alerts : List AlertRow
deriving DecidableEq, Repr

/-- Embeds steps 6-9 of `main` (lines 349-457) given the selected current
neighborhood and the previous snapshot read: with no usable previous snapshot
(absent or empty) only the history rows are appended and the run returns;
otherwise the differencer and ranker run, PE alerts are emitted before CE
alerts, and the history rows are appended as well. -/
def runCore (ts : ℕ) (sym : String) (underlying : ℚ) (sel : List StrikeRecord)
    (prev : Option (List PrevRow)) (thr : ℚ) (top_n : ℕ) : RunResult :=
  let hist_rows := sel.map (histRow ts sym underlying)
  match prev with
  | none => ⟨hist_rows, []⟩
  | some [] => ⟨hist_rows, []⟩
  | some prevRows =>
      let ce := rows_ce sel prevRows
      let pe := rows_pe sel prevRows
      let alerts :=
        buildAlerts .PE (alertsTable pe thr top_n) ++
        buildAlerts .CE (alertsTable ce thr top_n)
      ⟨hist_rows, alerts⟩

/-! ## General lemmas about the sorting model -/

theorem sortOn_perm {α : Type} (key : α → ℚ) (l : List α) :
    (sortOn key l).Perm l :=
  List.perm_insertionSort _ l

theorem mem_sortOn {α : Type} {key : α → ℚ} {l : List α} {x : α} :
    x ∈ sortOn key l ↔ x ∈ l :=
  (sortOn_perm key l).mem_iff

theorem length_sortOn {α : Type} (key : α → ℚ) (l : List α) :
    (sortOn key l).length = l.length :=
  (sortOn_perm key l).length_eq

theorem sorted_sortOn {α : Type} (key : α → ℚ) (l : List α) :
    (sortOn key l).Sorted (fun a b => key a ≤ key b) := by
  haveI : IsTotal α (fun a b => key a ≤ key b) := ⟨fun a b => le_total _ _⟩
  haveI : IsTrans α (fun a b => key a ≤ key b) := ⟨fun _ _ _ h1 h2 => le_trans h1 h2⟩
  exact List.sorted_insertionSort _ l

theorem pair_sublist_sortOn {α : Type} {key : α → ℚ} {a b : α} {l : List α}
    (hab : key a ≤ key b) (h : [a, b].Sublist l) :
    [a, b].Sublist (sortOn key l) :=
  List.pair_sublist_insertionSort hab h

/-! ## Lemmas about `enumerate1` -/

theorem enumerate1_map_fst {α : Type} :
    ∀ (n : ℕ) (l : List α), (enumerate1 n l).map Prod.fst = List.range' n l.length
  | _, [] => rfl
  | n, _ :: l => by
      simp only [enumerate1, List.map_cons, List.length_cons, List.range'_succ,
        enumerate1_map_fst (n + 1) l]

theorem enumerate1_map_snd {α : Type} :
    ∀ (n : ℕ) (l : List α), (enumerate1 n l).map Prod.snd = l
  | _, [] => rfl
  | n, a :: l => by
      simp only [enumerate1, List.map_cons, enumerate1_map_snd (n + 1) l]

theorem length_enumerate1 {α : Type} :
    ∀ (n : ℕ) (l : List α), (enumerate1 n l).length = l.length
  | _, [] => rfl
  | n, a :: l => by
      simp only [enumerate1, List.length_cons, length_enumerate1 (n + 1) l]

theorem mem_snd_of_mem_enumerate1 {α : Type} {p : ℕ × α} :
    ∀ {n : ℕ} {l : List α}, p ∈ enumerate1 n l → p.2 ∈ l := by
  intro n l
  induction l generalizing n with
  | nil => intro h; simp [enumerate1] at h
  | cons a l ih =>
      intro h
      rcases List.mem_cons.mp h with h | h
      · subst h; simp
      · exact List.mem_cons_of_mem _ (ih h)

/-! ## Lemmas about `dedupFirst` -/

theorem dedupFirst_sublist : ∀ l : List StrikeRecord, (dedupFirst l).Sublist l
  | [] => by rw [dedupFirst]
  | r :: rs => by
      rw [dedupFirst]
      exact (dedupFirst_sublist _).trans (List.filter_sublist rs) |>.cons₂ r
termination_by l => l.length
decreasing_by
  simp only [List.length_cons]
  exact Nat.lt_succ_of_le (List.length_filter_le _ _)

theorem nodup_strikes_dedupFirst :
    ∀ l : List StrikeRecord, ((dedupFirst l).map (fun r => r.strike)).Nodup
  | [] => by rw [dedupFirst]; exact List.nodup_nil
  | r :: rs => by
      rw [dedupFirst]
      simp only [List.map_cons, List.nodup_cons]
      refine ⟨?_, nodup_strikes_dedupFirst (rs.filter fun x => x.strike != r.strike)⟩
      intro hmem
      rcases List.mem_map.mp hmem with ⟨x, hx, hs⟩
      have hx' := (dedupFirst_sublist _).subset hx
      have := (List.mem_filter.mp hx').2
      simp only [bne_iff_ne, ne_eq, decide_eq_true_eq] at this
      exact this hs
termination_by l => l.length
decreasing_by
  simp only [List.length_cons]
  exact Nat.lt_succ_of_le (List.length_filter_le _ _)

theorem find?_filter_of_imp {α : Type} {p q : α → Bool}
    (hpq : ∀ x, p x = true → q x = true) :
    ∀ l : List α, (l.filter q).find? p = l.find? p := by
  intro l
  induction l with
  | nil => rfl
  | cons a l ih =>
      by_cases hq : q a = true
      · rw [List.filter_cons_of_pos hq]
        by_cases hp : p a = true
        · rw [List.find?_cons_of_pos _ hp, List.find?_cons_of_pos _ hp]
        · rw [List.find?_cons_of_neg _ hp, List.find?_cons_of_neg _ hp, ih]
      · have hp : ¬p a = true := fun h => hq (hpq a h)
        rw [List.filter_cons_of_neg hq, List.find?_cons_of_neg _ hp, ih]

theorem find?_of_mem_dedupFirst :
    ∀ (l : List StrikeRecord) (r : StrikeRecord), r ∈ dedupFirst l →
      l.find? (fun x => x.strike == r.strike) = some r
  | [], r => by intro h; simp [dedupFirst] at h
  | a :: rs, r => by
      intro h
      rw [dedupFirst] at h
      rcases List.mem_cons.mp h with rfl | h
      · exact List.find?_cons_of_pos _ (by simp)
      · have hrf : r ∈ rs.filter fun x => x.strike != a.strike :=
          (dedupFirst_sublist _).subset h
        have hne : r.strike ≠ a.strike := by
          have := (List.mem_filter.mp hrf).2
          simpa using this
        have hstep : (rs.filter fun x => x.strike != a.strike).find?
            (fun x => x.strike == r.strike) = rs.find? (fun x => x.strike == r.strike) := by
          refine find?_filter_of_imp (fun x hx => ?_) rs
          simp only [beq_iff_eq] at hx
          simpa [hx] using hne
        rw [List.find?_cons_of_neg _ (by simpa using fun hh => hne hh.symm), ← hstep]
        exact find?_of_mem_dedupFirst _ r h
termination_by l _ => l.length
decreasing_by
  simp only [List.length_cons]
  exact Nat.lt_succ_of_le (List.length_filter_le _ _)

theorem truncQ_zero : truncQ 0 = 0 := by simp [truncQ]

/-! ## Claim theorems -/

/-- Claim C1, counterexample.  The claim says a current strike absent from the
previous lookup gets `prev_oi = 0` and, with `curr_coi > 0`,
`pct_coi = curr_coi / 1e-9`, so it can rank first.  At the concrete input of
the spec's scenario A (current strike 100 with `CE_COI = 50 > 0`,
`CE_OI = 200`; previous snapshot holding only strike 105) the code instead
produces `pct_coi = 0.0`, not `50 / 1e-9`, and the strike produces no alert at
all. -/
theorem c1_absent_strike_counterexample :
    prevLookup [⟨105, 400, 0, 400, 0⟩] 100 = none ∧
    0 < ((mkDiff [⟨105, 400, 0, 400, 0⟩] ⟨100, 200, 50, 0, 0, 0, 0⟩).1).coi ∧
    ((mkDiff [⟨105, 400, 0, 400, 0⟩] ⟨100, 200, 50, 0, 0, 0, 0⟩).1).prev_oi = 0 ∧
    ((mkDiff [⟨105, 400, 0, 400, 0⟩] ⟨100, 200, 50, 0, 0, 0, 0⟩).1).pct_coi = 0 ∧
    ((mkDiff [⟨105, 400, 0, 400, 0⟩] ⟨100, 200, 50, 0, 0, 0, 0⟩).1).pct_coi ≠
      (50 : ℚ) / MIN_PREV_OI_DENOM ∧
    buildAlerts .CE (alertsTable
      (rows_ce [⟨100, 200, 50, 0, 0, 0, 0⟩] [⟨105, 400, 0, 400, 0⟩])
      MIN_POSITIVE_PCT ALERT_TOP_N) = [] := by
  refine ⟨by decide, by decide, by decide, by decide, ?_, ?_⟩
  · have h : ((mkDiff [⟨105, 400, 0, 400, 0⟩] ⟨100, 200, 50, 0, 0, 0, 0⟩).1).pct_coi = 0 := by
      decide
    rw [h]
    norm_num [MIN_PREV_OI_DENOM]
  · have h : rows_ce [⟨100, 200, 50, 0, 0, 0, 0⟩] [⟨105, 400, 0, 400, 0⟩] =
        [⟨100, 0, 200, 50, 0⟩] := by decide
    rw [alertsTable, h]
    norm_num [sortOnDesc, sortOn, List.insertionSort, List.orderedInsert,
      List.filter, MIN_POSITIVE_PCT, buildAlerts, enumerate1]

/-- Claim C1, amended.  For every current strike whose strike key is absent
from the previous neighborhood lookup, `prev_oi` is taken to be 0 and
`pct_coi` is 0.0 regardless of the side's `curr_coi` (the code sets the pct to
zero directly instead of applying the `curr_coi / max(prev_oi, 1e-9)`
formula), so such a strike can never rank in the alerts. -/
theorem c1_absent_strike_amended (sel : List StrikeRecord) (prev : List PrevRow)
    (d : DiffRow) (hd : d ∈ rows_ce sel prev ∨ d ∈ rows_pe sel prev)
    (habs : prevLookup prev d.strike = none) :
    d.prev_oi = 0 ∧ d.pct_coi = 0 := by
  have key : ∀ r : StrikeRecord, r ∈ sel →
      (d = (mkDiff prev r).1 ∨ d = (mkDiff prev r).2) →
      d.prev_oi = 0 ∧ d.pct_coi = 0 := by
    intro r _ hcase
    cases hpm : prevLookup prev (truncQ r.strike) with
    | none =>
        rcases hcase with rfl | rfl <;> simp [mkDiff, hpm]
    | some pm =>
        exfalso
        have hstrike : d.strike = truncQ r.strike := by
          rcases hcase with rfl | rfl <;> simp [mkDiff, hpm]
        rw [hstrike, hpm] at habs
        exact Option.noConfusion habs
  rcases hd with hd | hd
  · rcases List.mem_map.mp hd with ⟨r, hr, rfl⟩
    exact key r hr (Or.inl rfl)
  · rcases List.mem_map.mp hd with ⟨r, hr, rfl⟩
    exact key r hr (Or.inr rfl)

/-- Claim C1, amended, witness at a concrete input: current strike 100 with
`CE_COI = 50`, previous snapshot holding only strike 105. -/
theorem c1_absent_strike_amended_witness :
    ((mkDiff [⟨105, 400, 0, 400, 0⟩] ⟨100, 200, 50, 0, 0, 0, 0⟩).1 ∈
        rows_ce [⟨100, 200, 50, 0, 0, 0, 0⟩] [⟨105, 400, 0, 400, 0⟩] ∨
      (mkDiff [⟨105, 400, 0, 400, 0⟩] ⟨100, 200, 50, 0, 0, 0, 0⟩).1 ∈
        rows_pe [⟨100, 200, 50, 0, 0, 0, 0⟩] [⟨105, 400, 0, 400, 0⟩]) ∧
    prevLookup [⟨105, 400, 0, 400, 0⟩]
      ((mkDiff [⟨105, 400, 0, 400, 0⟩] ⟨100, 200, 50, 0, 0, 0, 0⟩).1).strike = none ∧
    ((mkDiff [⟨105, 400, 0, 400, 0⟩] ⟨100, 200, 50, 0, 0, 0, 0⟩).1).prev_oi = 0 ∧
    ((mkDiff [⟨105, 400, 0, 400, 0⟩] ⟨100, 200, 50, 0, 0, 0, 0⟩).1).pct_coi = 0 := by
  have hmem : (mkDiff [⟨105, 400, 0, 400, 0⟩] ⟨100, 200, 50, 0, 0, 0, 0⟩).1 ∈
      rows_ce [⟨100, 200, 50, 0, 0, 0, 0⟩] [⟨105, 400, 0, 400, 0⟩] := by
    simp [rows_ce]
  refine ⟨Or.inl hmem, by decide, ?_⟩
  exact c1_absent_strike_amended [⟨100, 200, 50, 0, 0, 0, 0⟩] [⟨105, 400, 0, 400, 0⟩]
    (mkDiff [⟨105, 400, 0, 400, 0⟩] ⟨100, 200, 50, 0, 0, 0, 0⟩).1
    (Or.inl hmem) (by decide)

/-- Claim C2: in the differencer, for every current strike and each side, a
non-positive `curr_coi` forces `pct_coi = 0.0` regardless of `prev_oi`, and a
positive `curr_coi` with the strike present in the previous lookup gives
`pct_coi = curr_coi / max(prev_oi, 1e-9)` for that side's previous open
interest. -/
theorem c2_pct_formula (sel : List StrikeRecord) (prev : List PrevRow) :
    (∀ d ∈ rows_ce sel prev,
      (d.coi ≤ 0 → d.pct_coi = 0) ∧
      ∀ pm, 0 < d.coi → prevLookup prev d.strike = some pm →
        d.pct_coi = (d.coi : ℚ) / max (pm.CE_OI : ℚ) MIN_PREV_OI_DENOM) ∧
    (∀ d ∈ rows_pe sel prev,
      (d.coi ≤ 0 → d.pct_coi = 0) ∧
      ∀ pm, 0 < d.coi → prevLookup prev d.strike = some pm →
        d.pct_coi = (d.coi : ℚ) / max (pm.PE_OI : ℚ) MIN_PREV_OI_DENOM) := by
  constructor
  · intro d hd
    rcases List.mem_map.mp hd with ⟨r, _, rfl⟩
    cases hpm : prevLookup prev (truncQ r.strike) with
    | none =>
        refine ⟨fun _ => by simp [mkDiff, hpm], fun pm _ hlook => ?_⟩
        simp only [mkDiff, hpm] at hlook
        exact Option.noConfusion hlook
    | some pm' =>
        constructor
        · intro hcoi
          simp only [mkDiff, hpm] at hcoi ⊢
          rw [if_neg (not_lt.mpr hcoi)]
        · intro pm hpos hlook
          simp only [mkDiff, hpm] at hpos hlook ⊢
          obtain rfl : pm' = pm := Option.some_injective _ hlook
          rw [if_pos hpos]
  · intro d hd
    rcases List.mem_map.mp hd with ⟨r, _, rfl⟩
    cases hpm : prevLookup prev (truncQ r.strike) with
    | none =>
        refine ⟨fun _ => by simp [mkDiff, hpm], fun pm _ hlook => ?_⟩
        simp only [mkDiff, hpm] at hlook
        exact Option.noConfusion hlook
    | some pm' =>
        constructor
        · intro hcoi
          simp only [mkDiff, hpm] at hcoi ⊢
          rw [if_neg (not_lt.mpr hcoi)]
        · intro pm hpos hlook
          simp only [mkDiff, hpm] at hpos hlook ⊢
          obtain rfl : pm' = pm := Option.some_injective _ hlook
          rw [if_pos hpos]

/-- Claim C2, witness: strike 100 present in the previous lookup with
`CE_OI = 100`, current `CE_COI = 50 > 0` gives `pct_coi = 50/100 = 1/2`;
the PE side with `PE_COI = -7 ≤ 0` gives `pct_coi = 0`. -/
theorem c2_pct_formula_witness :
    ((mkDiff [⟨100, 100, 0, 40, 0⟩] ⟨100, 200, 50, 0, 300, -7, 0⟩).1).pct_coi =
      ((50 : ℚ) / max (100 : ℚ) MIN_PREV_OI_DENOM) ∧
    ((mkDiff [⟨100, 100, 0, 40, 0⟩] ⟨100, 200, 50, 0, 300, -7, 0⟩).2).pct_coi = 0 := by
  constructor
  · have h := (c2_pct_formula [⟨100, 200, 50, 0, 300, -7, 0⟩] [⟨100, 100, 0, 40, 0⟩]).1
      (mkDiff [⟨100, 100, 0, 40, 0⟩] ⟨100, 200, 50, 0, 300, -7, 0⟩).1 (by simp [rows_ce])
    have heq := h.2 ⟨100, 100, 0, 40, 0⟩ (by decide) (by decide)
    rw [heq]
    have hcoi : ((mkDiff [⟨100, 100, 0, 40, 0⟩] ⟨100, 200, 50, 0, 300, -7, 0⟩).1).coi = 50 := by
      decide
    rw [hcoi]
    norm_num
  · have h := (c2_pct_formula [⟨100, 200, 50, 0, 300, -7, 0⟩] [⟨100, 100, 0, 40, 0⟩]).2
      (mkDiff [⟨100, 100, 0, 40, 0⟩] ⟨100, 200, 50, 0, 300, -7, 0⟩).2 (by simp [rows_pe])
    exact h.1 (by decide)

/-- Claim C5: the normalizer's coercions are total; for each side, a missing,
null, or unparseable open-interest / change-in-open-interest value yields 0
(0.0 for implied volatility), and a parseable numeric value yields the coerced
value (`int(float(x))`, i.e. truncation toward zero, for the integer columns;
`float(x)` for implied volatility). -/
theorem c5_normalizer_coercion (rec : RawRec) :
    (safe_int .vnull = 0) ∧ (safe_int .vbad = 0) ∧
    (∀ q, safe_int (.vnum q) = truncQ q) ∧
    (safe_float .vnull = 0) ∧ (safe_float .vbad = 0) ∧
    (∀ q, safe_float (.vnum q) = q) ∧
    ((rec.CE.getD emptySide).openInterest = none → (rowOfRec rec).CE_OI = 0) ∧
    (∀ v, (rec.CE.getD emptySide).openInterest = some v →
      (rowOfRec rec).CE_OI = safe_int v) ∧
    ((rec.CE.getD emptySide).changeinOpenInterest = none →
      (rowOfRec rec).CE_COI = 0) ∧
    (∀ v, (rec.CE.getD emptySide).changeinOpenInterest = some v →
      (rowOfRec rec).CE_COI = safe_int v) ∧
    ((rec.CE.getD emptySide).impliedVolatility = none → (rowOfRec rec).CE_IV = 0) ∧
    (∀ v, (rec.CE.getD emptySide).impliedVolatility = some v →
      (rowOfRec rec).CE_IV = safe_float v) ∧
    ((rec.PE.getD emptySide).openInterest = none → (rowOfRec rec).PE_OI = 0) ∧
    (∀ v, (rec.PE.getD emptySide).openInterest = some v →
      (rowOfRec rec).PE_OI = safe_int v) ∧
    ((rec.PE.getD emptySide).changeinOpenInterest = none →
      (rowOfRec rec).PE_COI = 0) ∧
    (∀ v, (rec.PE.getD emptySide).changeinOpenInterest = some v →
      (rowOfRec rec).PE_COI = safe_int v) ∧
    ((rec.PE.getD emptySide).impliedVolatility = none → (rowOfRec rec).PE_IV = 0) ∧
    (∀ v, (rec.PE.getD emptySide).impliedVolatility = some v →
      (rowOfRec rec).PE_IV = safe_float v) := by
  refine ⟨rfl, rfl, fun q => rfl, rfl, rfl, fun q => rfl, ?_, ?_, ?_, ?_, ?_, ?_,
    ?_, ?_, ?_, ?_, ?_, ?_⟩ <;>
    first
      | (intro h; simp [rowOfRec, h, safe_int, safe_float, truncQ_zero])
      | (intro v h; simp [rowOfRec, h])

/-- Claim C5, witness: a record whose CE open interest is unparseable, whose
CE implied volatility is 5/2, and whose PE side dict is absent entirely. -/
theorem c5_normalizer_coercion_witness :
    (rowOfRec ⟨some (.vnum 100), some ⟨some .vbad, none, some (.vnum (5/2))⟩, none⟩).CE_OI
      = 0 ∧
    (rowOfRec ⟨some (.vnum 100), some ⟨some .vbad, none, some (.vnum (5/2))⟩, none⟩).CE_IV
      = 5/2 ∧
    (rowOfRec ⟨some (.vnum 100), some ⟨some .vbad, none, some (.vnum (5/2))⟩, none⟩).PE_OI
      = 0 := by
  have h := c5_normalizer_coercion
    ⟨some (.vnum 100), some ⟨some .vbad, none, some (.vnum (5/2))⟩, none⟩
  refine ⟨(h.2.2.2.2.2.2.2.1 .vbad rfl).trans rfl, ?_, h.2.2.2.2.2.2.2.2.2.2.2.2.1 rfl⟩
  exact (h.2.2.2.2.2.2.2.2.2.2.2.1 (.vnum (5/2)) rfl).trans rfl

/-- Claim C6, counterexample.  The claim says the normalizer yields strike 0
whenever the strike field is absent OR its value is invalid, and that the
resulting strike is always numeric.  On an entry whose `strikePrice` is
present but null, the code passes the raw value through unchanged: the row's
strike is null, not 0, and not numeric. -/
theorem c6_strike_default_counterexample :
    (rowOfRec ⟨some .vnull, none, none⟩).strike = .vnull ∧
    RawVal.vnull ≠ RawVal.vnum 0 ∧
    toStrikeRecord (rowOfRec ⟨some .vnull, none, none⟩) = none := by
  decide

/-- Claim C6, amended.  The normalizer defaults the strike to 0 only when the
`strikePrice` field is absent; a present value — valid or not — is passed
through unchanged, so the strike column is numeric only when every present
`strikePrice` value is numeric. -/
theorem c6_strike_default_amended (rec : RawRec) :
    (rec.strikePrice = none → (rowOfRec rec).strike = .vnum 0) ∧
    (∀ v, rec.strikePrice = some v → (rowOfRec rec).strike = v) := by
  constructor
  · intro h; simp [rowOfRec, h]
  · intro v h; simp [rowOfRec, h]

/-- Claim C6, amended, witness: absent strike gives 0; a present null strike
passes through. -/
theorem c6_strike_default_amended_witness :
    (rowOfRec ⟨none, none, none⟩).strike = .vnum 0 ∧
    (rowOfRec ⟨some .vnull, none, none⟩).strike = .vnull := by
  exact ⟨(c6_strike_default_amended ⟨none, none, none⟩).1 rfl,
    (c6_strike_default_amended ⟨some .vnull, none, none⟩).2 .vnull rfl⟩

/-- Claim C8: when no previous snapshot is available (read yields none, or an
empty row set), the run appends exactly the history rows of the current
neighborhood, emits zero alert rows, skips the differencer/ranker entirely,
and completes normally (the result is the no-alert completion value). -/
theorem c8_no_previous_snapshot (ts : ℕ) (sym : String) (u : ℚ)
    (sel : List StrikeRecord) (thr : ℚ) (top_n : ℕ) :
    runCore ts sym u sel none thr top_n =
      ⟨sel.map (histRow ts sym u), []⟩ ∧
    runCore ts sym u sel (some []) thr top_n =
      ⟨sel.map (histRow ts sym u), []⟩ :=
  ⟨rfl, rfl⟩

theorem buildAlerts_map_pct (side : Side) (tbl : List DiffRow) :
    (buildAlerts side tbl).map (fun a => a.pct_coi) = tbl.map (fun d => d.pct_coi) := by
  rw [buildAlerts, List.map_map]
  have h1 : ((fun a : AlertRow => a.pct_coi) ∘
      fun p : ℕ × DiffRow => (⟨p.1, p.2.strike, side, p.2.pct_coi⟩ : AlertRow)) =
      (fun d : DiffRow => d.pct_coi) ∘ Prod.snd := rfl
  rw [h1, ← List.map_map, enumerate1_map_snd]

theorem buildAlerts_map_rank (side : Side) (tbl : List DiffRow) :
    (buildAlerts side tbl).map (fun a => a.rank) = List.range' 1 tbl.length := by
  rw [buildAlerts, List.map_map]
  have h1 : ((fun a : AlertRow => a.rank) ∘
      fun p : ℕ × DiffRow => (⟨p.1, p.2.strike, side, p.2.pct_coi⟩ : AlertRow)) =
      (Prod.fst : ℕ × DiffRow → ℕ) := rfl
  rw [h1, enumerate1_map_fst]

theorem length_buildAlerts (side : Side) (tbl : List DiffRow) :
    (buildAlerts side tbl).length = tbl.length := by
  rw [buildAlerts, List.length_map, length_enumerate1]

theorem pairwise_pct_alertsTable (rows : List DiffRow) (thr : ℚ) (top_n : ℕ) :
    (alertsTable rows thr top_n).Pairwise (fun a b => b.pct_coi ≤ a.pct_coi) := by
  have hs : (sortOnDesc (fun d => d.pct_coi) rows).Pairwise
      (fun a b => b.pct_coi ≤ a.pct_coi) := by
    rw [sortOnDesc, List.pairwise_reverse]
    exact sorted_sortOn (fun d => d.pct_coi) rows
  exact ((hs.filter _).sublist (List.take_sublist _ _))

/-- Claim C3: for each side the ranker's output has length at most `top_n`,
every output row's `pct_coi` strictly exceeds the threshold, the output is
sorted by `pct_coi` descending, ranks are exactly `1..k` in output order with
no gaps, and an empty filtered set yields an empty alert batch. -/
theorem c3_ranker (rows : List DiffRow) (thr : ℚ) (top_n : ℕ) (side : Side) :
    (buildAlerts side (alertsTable rows thr top_n)).length ≤ top_n ∧
    (∀ a ∈ buildAlerts side (alertsTable rows thr top_n), thr < a.pct_coi) ∧
    ((buildAlerts side (alertsTable rows thr top_n)).map
      (fun a => a.pct_coi)).Pairwise (fun p q => q ≤ p) ∧
    (buildAlerts side (alertsTable rows thr top_n)).map (fun a => a.rank) =
      List.range' 1 (buildAlerts side (alertsTable rows thr top_n)).length ∧
    (((sortOnDesc (fun d => d.pct_coi) rows).filter fun d => thr < d.pct_coi) = [] →
      buildAlerts side (alertsTable rows thr top_n) = []) := by
  refine ⟨?_, ?_, ?_, ?_, ?_⟩
  · rw [length_buildAlerts, alertsTable, List.length_take]
    exact inf_le_left
  · intro a ha
    rw [buildAlerts] at ha
    rcases List.mem_map.mp ha with ⟨p, hp, rfl⟩
    have h2 : p.2 ∈ alertsTable rows thr top_n := mem_snd_of_mem_enumerate1 hp
    have h3 : p.2 ∈ (sortOnDesc (fun d => d.pct_coi) rows).filter
        fun d => thr < d.pct_coi :=
      (List.take_sublist _ _).subset h2
    have h4 := (List.mem_filter.mp h3).2
    simpa using h4
  · rw [buildAlerts_map_pct]
    exact (List.pairwise_map).mpr (pairwise_pct_alertsTable rows thr top_n)
  · rw [buildAlerts_map_rank, length_buildAlerts]
  · intro h
    rw [alertsTable, h, List.take_nil]
    rfl

/-- Claim C3, witness at a concrete diff table: one row with `pct_coi = 1/2`
above the default threshold. -/
theorem c3_ranker_witness :
    (buildAlerts .CE (alertsTable [⟨100, 100, 150, 50, 1/2⟩]
      MIN_POSITIVE_PCT ALERT_TOP_N)).length ≤ ALERT_TOP_N ∧
    ∀ a ∈ buildAlerts .CE (alertsTable [⟨100, 100, 150, 50, 1/2⟩]
      MIN_POSITIVE_PCT ALERT_TOP_N), MIN_POSITIVE_PCT < a.pct_coi :=
  ⟨(c3_ranker [⟨100, 100, 150, 50, 1/2⟩] MIN_POSITIVE_PCT ALERT_TOP_N .CE).1,
   (c3_ranker [⟨100, 100, 150, 50, 1/2⟩] MIN_POSITIVE_PCT ALERT_TOP_N .CE).2.1⟩

/-- Claim C4, counterexample.  Two diff rows tie exactly on `pct_coi` (strikes
100 and 200, input in ascending-strike order).  The claim says their relative
order in the descending sort matches the input order (100 before 200); the
code (stable ascending sort, then reversal) emits 200 before 100, with ranks
1 and 2 respectively. -/
theorem c4_tie_order_counterexample :
    ([⟨100, 100, 150, 50, 1/2⟩, ⟨200, 100, 150, 50, 1/2⟩] :
      List DiffRow).map (fun d => d.pct_coi) = [1/2, 1/2] ∧
    (alertsTable [⟨100, 100, 150, 50, 1/2⟩, ⟨200, 100, 150, 50, 1/2⟩]
      MIN_POSITIVE_PCT ALERT_TOP_N).map (fun d => d.strike) = [200, 100] ∧
    (buildAlerts .CE (alertsTable [⟨100, 100, 150, 50, 1/2⟩, ⟨200, 100, 150, 50, 1/2⟩]
      MIN_POSITIVE_PCT ALERT_TOP_N)).map (fun a => (a.rank, a.strike)) =
      [(1, 200), (2, 100)] := by
  refine ⟨by norm_num, ?_, ?_⟩ <;>
    norm_num [alertsTable, sortOnDesc, sortOn, List.insertionSort,
      List.orderedInsert, List.filter, List.take, MIN_POSITIVE_PCT, ALERT_TOP_N,
      buildAlerts, enumerate1]

/-- Claim C4, amended.  For any two DiffRows with exactly equal `pct_coi`,
both are retained by the descending sort, but their relative order is the
REVERSE of the pre-sort input order (pandas sorts ascending stably and then
reverses the order for a descending sort); ranks are still assigned
sequentially with no tie-skip (see the ranker theorem for claim C3). -/
theorem c4_tie_order_amended (l : List DiffRow) (a b : DiffRow)
    (hab : [a, b].Sublist l) (hpct : a.pct_coi = b.pct_coi) :
    [b, a].Sublist (sortOnDesc (fun d => d.pct_coi) l) := by
  have h1 : [a, b].Sublist (sortOn (fun d => d.pct_coi) l) :=
    pair_sublist_sortOn (le_of_eq hpct) hab
  have h2 := h1.reverse
  simpa [sortOnDesc] using h2

/-- Claim C4, amended, witness: the concrete tied pair of the counterexample,
reversed in the sorted table. -/
theorem c4_tie_order_amended_witness :
    ([(⟨100, 100, 150, 50, 1/2⟩ : DiffRow), ⟨200, 100, 150, 50, 1/2⟩].Sublist
      [⟨100, 100, 150, 50, 1/2⟩, ⟨200, 100, 150, 50, 1/2⟩]) ∧
    ((⟨100, 100, 150, 50, 1/2⟩ : DiffRow).pct_coi =
      (⟨200, 100, 150, 50, 1/2⟩ : DiffRow).pct_coi) ∧
    [(⟨200, 100, 150, 50, 1/2⟩ : DiffRow), ⟨100, 100, 150, 50, 1/2⟩].Sublist
      (sortOnDesc (fun d => d.pct_coi)
        [⟨100, 100, 150, 50, 1/2⟩, ⟨200, 100, 150, 50, 1/2⟩]) :=
  ⟨List.Sublist.refl _, rfl,
    c4_tie_order_amended _ _ _ (List.Sublist.refl _) rfl⟩

/-- Claim C9: when `records_to_df` succeeds, its output table has strictly
ascending (hence duplicate-free) strikes, and every output row is the
first-seen normalized row for its strike value. -/
theorem c9_dedup_first_sorted (recs : List RawRec) (rows df : List StrikeRecord)
    (hrows : (recs.map rowOfRec).mapM toStrikeRecord = some rows)
    (hdf : records_to_df recs = some df) :
    ((df.map (fun r => r.strike)).Pairwise (· < ·)) ∧
    ∀ r ∈ df, rows.find? (fun x => x.strike == r.strike) = some r := by
  have hdf' : df = sortOn (fun r => r.strike) (dedupFirst rows) := by
    rw [records_to_df, hrows] at hdf
    exact (Option.some_injective _ hdf).symm
  subst hdf'
  constructor
  · have hsorted : (sortOn (fun r => r.strike) (dedupFirst rows)).Sorted
        (fun a b => a.strike ≤ b.strike) := sorted_sortOn _ _
    have hnd : ((sortOn (fun r => r.strike) (dedupFirst rows)).map
        (fun r => r.strike)).Nodup :=
      (((sortOn_perm _ _).map _).nodup_iff).mpr (nodup_strikes_dedupFirst rows)
    exact List.pairwise_map.mpr ((hsorted.and (List.pairwise_map.mp hnd)).imp
      fun h => lt_of_le_of_ne h.1 h.2)
  · intro r hr
    exact find?_of_mem_dedupFirst rows r (mem_sortOn.mp hr)

/-- Claim C9, witness: three raw entries with strikes 100, 50, 100 — the
duplicate strike 100 keeps the first-seen entry (CE open interest 5, not 7)
and the output is ordered ascending. -/
theorem c9_dedup_first_sorted_witness :
    (([⟨some (.vnum 100), some ⟨some (.vnum 5), none, none⟩, none⟩,
        ⟨some (.vnum 50), none, none⟩,
        ⟨some (.vnum 100), some ⟨some (.vnum 7), none, none⟩, none⟩] :
        List RawRec).map rowOfRec).mapM toStrikeRecord =
      some [⟨100, 5, 0, 0, 0, 0, 0⟩, ⟨50, 0, 0, 0, 0, 0, 0⟩, ⟨100, 7, 0, 0, 0, 0, 0⟩] ∧
    records_to_df [⟨some (.vnum 100), some ⟨some (.vnum 5), none, none⟩, none⟩,
        ⟨some (.vnum 50), none, none⟩,
        ⟨some (.vnum 100), some ⟨some (.vnum 7), none, none⟩, none⟩] =
      some [⟨50, 0, 0, 0, 0, 0, 0⟩, ⟨100, 5, 0, 0, 0, 0, 0⟩] ∧
    (([⟨50, 0, 0, 0, 0, 0, 0⟩, ⟨100, 5, 0, 0, 0, 0, 0⟩] :
      List StrikeRecord).map (fun r => r.strike)).Pairwise (· < ·) ∧
    ∀ r ∈ ([⟨50, 0, 0, 0, 0, 0, 0⟩, ⟨100, 5, 0, 0, 0, 0, 0⟩] : List StrikeRecord),
      ([⟨100, 5, 0, 0, 0, 0, 0⟩, ⟨50, 0, 0, 0, 0, 0, 0⟩, ⟨100, 7, 0, 0, 0, 0, 0⟩] :
        List StrikeRecord).find? (fun x => x.strike == r.strike) = some r := by
  have hrows : (([⟨some (.vnum 100), some ⟨some (.vnum 5), none, none⟩, none⟩,
      ⟨some (.vnum 50), none, none⟩,
      ⟨some (.vnum 100), some ⟨some (.vnum 7), none, none⟩, none⟩] :
      List RawRec).map rowOfRec).mapM toStrikeRecord =
      some [⟨100, 5, 0, 0, 0, 0, 0⟩, ⟨50, 0, 0, 0, 0, 0, 0⟩, ⟨100, 7, 0, 0, 0, 0, 0⟩] := by
    decide
  have hdf : records_to_df [⟨some (.vnum 100), some ⟨some (.vnum 5), none, none⟩, none⟩,
      ⟨some (.vnum 50), none, none⟩,
      ⟨some (.vnum 100), some ⟨some (.vnum 7), none, none⟩, none⟩] =
      some [⟨50, 0, 0, 0, 0, 0, 0⟩, ⟨100, 5, 0, 0, 0, 0, 0⟩] := by
    rw [records_to_df, hrows]
    simp +decide [dedupFirst, sortOn, List.insertionSort, List.orderedInsert]
  have h := c9_dedup_first_sorted _ _ _ hrows hdf
  exact ⟨hrows, hdf, h.1, h.2⟩

/-- Claim C10: the previous-snapshot read takes the maximum timestamp over ALL
history rows regardless of symbol and only then filters to the configured
symbol; if every row at that maximum timestamp has a different symbol, the
read yields none — even when older rows for the symbol exist — and the run
takes the first-run path (history persisted, no alerts). -/
theorem c10_prev_read_symbol_filter (h : HistRow) (t : List HistRow) (sym : String)
    (hmax : ∀ r ∈ h :: t, r.timestamp = maxTimestamp h t → r.symbol ≠ sym)
    (_hold : ∃ r ∈ h :: t, r.symbol = sym)
    (ts : ℕ) (runSym : String) (u : ℚ) (sel : List StrikeRecord)
    (thr : ℚ) (top_n : ℕ) :
    readPrevSnapshot (h :: t) sym = none ∧
    runCore ts runSym u sel (readPrevSnapshot (h :: t) sym) thr top_n =
      ⟨sel.map (histRow ts runSym u), []⟩ := by
  have hfil : ((h :: t).filter fun r =>
      r.timestamp == maxTimestamp h t && r.symbol == sym) = [] := by
    rw [List.filter_eq_nil_iff]
    intro r hr
    simp only [Bool.and_eq_true, beq_iff_eq, not_and]
    exact fun hts hsym => hmax r hr hts hsym
  have hnone : readPrevSnapshot (h :: t) sym = none := by
    rw [readPrevSnapshot]
    simp only [hfil, List.isEmpty_nil, if_true]
  refine ⟨hnone, ?_⟩
  rw [hnone]
  rfl

/-- Claim C10, witness: history holds an older NIFTY row (timestamp 1) and a
newer BANKNIFTY row (timestamp 2); the read for NIFTY yields none and the run
emits no alerts. -/
theorem c10_prev_read_symbol_filter_witness :
    (∀ r ∈ [(⟨1, "NIFTY", 100, 100, 1, 1, 0, 1, 1, 0⟩ : HistRow),
        ⟨2, "BANKNIFTY", 100, 100, 1, 1, 0, 1, 1, 0⟩],
      r.timestamp = maxTimestamp ⟨1, "NIFTY", 100, 100, 1, 1, 0, 1, 1, 0⟩
        [⟨2, "BANKNIFTY", 100, 100, 1, 1, 0, 1, 1, 0⟩] → r.symbol ≠ "NIFTY") ∧
    (∃ r ∈ [(⟨1, "NIFTY", 100, 100, 1, 1, 0, 1, 1, 0⟩ : HistRow),
        ⟨2, "BANKNIFTY", 100, 100, 1, 1, 0, 1, 1, 0⟩], r.symbol = "NIFTY") ∧
    readPrevSnapshot [⟨1, "NIFTY", 100, 100, 1, 1, 0, 1, 1, 0⟩,
      ⟨2, "BANKNIFTY", 100, 100, 1, 1, 0, 1, 1, 0⟩] "NIFTY" = none := by
  have hmax : ∀ r ∈ [(⟨1, "NIFTY", 100, 100, 1, 1, 0, 1, 1, 0⟩ : HistRow),
      ⟨2, "BANKNIFTY", 100, 100, 1, 1, 0, 1, 1, 0⟩],
      r.timestamp = maxTimestamp ⟨1, "NIFTY", 100, 100, 1, 1, 0, 1, 1, 0⟩
        [⟨2, "BANKNIFTY", 100, 100, 1, 1, 0, 1, 1, 0⟩] → r.symbol ≠ "NIFTY" := by
    decide
  have hold : ∃ r ∈ [(⟨1, "NIFTY", 100, 100, 1, 1, 0, 1, 1, 0⟩ : HistRow),
      ⟨2, "BANKNIFTY", 100, 100, 1, 1, 0, 1, 1, 0⟩], r.symbol = "NIFTY" := by
    decide
  exact ⟨hmax, hold,
    (c10_prev_read_symbol_filter ⟨1, "NIFTY", 100, 100, 1, 1, 0, 1, 1, 0⟩
      [⟨2, "BANKNIFTY", 100, 100, 1, 1, 0, 1, 1, 0⟩] "NIFTY" hmax hold
      0 "NIFTY" 100 [] 0 3).1⟩

end Nifty
